import Mathlib

/-!
ConnectionHandleFactory (peloton, `src/include/network/connection_handle_factory.h`)

A shallow embedding of the connection-handle factory.  The factory keeps a map
from connection file descriptors to shared pointers to `ConnectionHandle`
objects.  Shared pointers are modelled as optional addresses into an explicit
object store, so that handle identity, null pointers and in-place mutation of a
pooled handle are all visible.  The reactors of the handler tasks and the
sequence of `UnregisterEvent` calls issued so far are part of the state.
-/

namespace peloton.network

/-! ## Collaborators declared outside the factory header -/

/-- Modelled from the spec: the `Buffer` leaf component (declared in a header that is
not part of the sources at hand).  A byte region with a read and a write cursor and
its logical contents. -/
structure Buffer where
  read_cursor : Nat
  write_cursor : Nat
  contents : List Nat
deriving DecidableEq, Repr

/-- Modelled from the spec: a buffer right after construction is empty, both
cursors at zero. -/
def Buffer.fresh : Buffer :=
  { read_cursor := 0, write_cursor := 0, contents := [] }

/-- Modelled from the spec: `Buffer::Reset()`, "cursors zeroed, contents logically
discarded". -/
def Buffer.Reset (b : Buffer) : Buffer :=
  { b with read_cursor := 0, write_cursor := 0, contents := [] }

/-- Modelled from the spec: the four values of the transport-security state. -/
inductive SecurityState where
  | not_negotiated
  | negotiating
  | established
  | not_applicable
deriving DecidableEq, Repr

/-- Modelled from the spec: the `client_` member of a handle, which carries the
transport-security state of the connection. -/
structure Client where
  transport_security_state : SecurityState
deriving DecidableEq, Repr

/-- Modelled from the spec: the client state of a handle right after construction. -/
def Client.fresh : Client :=
  { transport_security_state := SecurityState.not_negotiated }

/-- Modelled from the spec: `Client::Reset()`, "clear transport-security state". -/
def Client.Reset (c : Client) : Client :=
  { c with transport_security_state := SecurityState.not_negotiated }

/-- Modelled from the spec: the wire protocol handler owned by a handle; its state
is the list of decoded commands not yet dispatched. -/
structure ProtocolHandler where
  pending_commands : List Nat
deriving DecidableEq, Repr

/-- Modelled from the spec: a protocol handler in its initial state. -/
def ProtocolHandler.fresh : ProtocolHandler :=
  { pending_commands := [] }

/-- Modelled from the spec: `ProtocolHandler::Reset()`, back to the initial state. -/
def ProtocolHandler.Reset (p : ProtocolHandler) : ProtocolHandler :=
  { p with pending_commands := [] }

/-- Modelled from the spec: the query-execution adapter ("traffic cop") owned by a
handle: whether work is queued on a background worker, and the results produced. -/
structure TrafficCop where
  is_queuing : Bool
  results : List Nat
deriving DecidableEq, Repr

/-- Modelled from the spec: a traffic cop in its initial state. -/
def TrafficCop.fresh : TrafficCop :=
  { is_queuing := false, results := [] }

/-- Modelled from the spec: `TrafficCop::Reset()`, "restores the adapter to a state
usable for an unrelated future connection". -/
def TrafficCop.Reset (t : TrafficCop) : TrafficCop :=
  { t with is_queuing := false, results := [] }

/-- Modelled from the spec: the members of `ConnectionHandle` (declared in
`network/connection_handle.h`, not part of the sources at hand) that the factory
reads or writes, under the member names the factory uses.  `handler_` is the
`ConnectionHandlerTask *` of the owning task, here the identifier of a live task; the
two event members are `struct event *`, `none` standing for `nullptr`. -/
structure ConnectionHandle where
  sock_fd_ : Int
  handler_ : Nat
  client_ : Client
  rbuf_ : Buffer
  wbuf_ : Buffer
  protocol_handler_ : ProtocolHandler
  traffic_cop_ : TrafficCop
  next_response_ : Nat
  ssl_sent_ : Bool
  network_event : Option Nat
  workpool_event : Option Nat
deriving DecidableEq, Repr

/-- Modelled from the spec: the private constructor `ConnectionHandle(conn_fd, handler)`
(its body is not part of the sources at hand).  The new handle is bound to the
connection identifier and to the handler task, its components are in their initial
states and it holds no event registration. -/
def ConnectionHandle.construct (sock_fd : Int) (handler : Nat) : ConnectionHandle :=
  { sock_fd_ := sock_fd
    handler_ := handler
    client_ := Client.fresh
    rbuf_ := Buffer.fresh
    wbuf_ := Buffer.fresh
    protocol_handler_ := ProtocolHandler.fresh
    traffic_cop_ := TrafficCop.fresh
    next_response_ := 0
    ssl_sent_ := false
    network_event := none
    workpool_event := none }

/-! ## Program state -/

/-- A `std::shared_ptr<ConnectionHandle>`: `none` is the null pointer, `some a` points
at the object stored at address `a`. -/
abbrev HandlePtr := Option Nat

/-- The `std::unordered_map<int, std::shared_ptr<ConnectionHandle>>` of the factory,
as an association list. -/
abbrev HandleMap := List (Int × HandlePtr)

/-- The state the factory runs in: the static `PelotonServer::recent_connfd`, the
factory's `reusable_handles_`, the store of allocated handles (addresses are
positions), the event registrations held by the reactors of the handler tasks as
(task, event) pairs, and the trace of `UnregisterEvent` calls made so far. -/
structure World where
  recent_connfd : Int
  reusable_handles_ : HandleMap
  heap : List ConnectionHandle
  reactors : List (Nat × Nat)
  unregister_calls : List (Nat × Nat)
deriving DecidableEq, Repr

/-- A process in which the factory singleton has just been created: no handle has
been allocated, no event is registered.  `fd0` is the initial value of the static
`recent_connfd`. -/
def World.init (fd0 : Int) : World :=
  { recent_connfd := fd0
    reusable_handles_ := []
    heap := []
    reactors := []
    unregister_calls := [] }

/-- The call `reusable_handles_.find(conn_fd)`: `none` stands for `end()`. -/
def HandleMap.find (m : HandleMap) (conn_fd : Int) : Option HandlePtr :=
  List.lookup conn_fd m

/-- The read `m[conn_fd]` of `std::unordered_map::operator[]`: a missing key is
inserted with a value-initialised (null) pointer. -/
def HandleMap.index (m : HandleMap) (conn_fd : Int) : HandlePtr × HandleMap :=
  match m.find conn_fd with
  | some p => (p, m)
  | none => (none, m ++ [(conn_fd, none)])

/-- The assignment `m[conn_fd] = p`. -/
def HandleMap.assign (m : HandleMap) (conn_fd : Int) (p : HandlePtr) : HandleMap :=
  match m.find conn_fd with
  | some _ => m.map (fun e => if e.1 = conn_fd then (conn_fd, p) else e)
  | none => m ++ [(conn_fd, p)]

/-- The expression `new ConnectionHandle(...)` wrapped in a shared pointer: the object is
stored at the next free address. -/
def World.alloc (w : World) (hd : ConnectionHandle) : HandlePtr × World :=
  (some w.heap.length, { w with heap := w.heap ++ [hd] })

/-- Modelled from the spec: `ConnectionHandlerTask::UnregisterEvent(ref)` (defined
outside the factory header): removal of the registration from the reactor of that
task, a no-op when the reactor does not track it.  The call is recorded in the
trace. -/
def UnregisterEvent (w : World) (task : Nat) (ev : Nat) : World :=
  { w with
    reactors := w.reactors.filter (fun r => decide (r ≠ (task, ev)))
    unregister_calls := w.unregister_calls ++ [(task, ev)] }

/-! ## The factory -/

/-- The private `ConnectionHandleFactory::Reset`.  Dereferencing a null pointer (or an
address that holds no object) has no defined result: `none`. -/
def Reset (w : World) (handle : HandlePtr) : Option (HandlePtr × World) :=
  match handle with
  | none => none
  | some a =>
    match w.heap[a]? with
    | none => none
    | some hd =>
      let hd := { hd with client_ := hd.client_.Reset }
      let hd := { hd with rbuf_ := hd.rbuf_.Reset }
      let hd := { hd with wbuf_ := hd.wbuf_.Reset }
      let hd := { hd with protocol_handler_ := hd.protocol_handler_.Reset }
      let hd := { hd with traffic_cop_ := hd.traffic_cop_.Reset }
      let hd := { hd with next_response_ := 0 }
      let hd := { hd with ssl_sent_ := false }
      let w := { w with heap := w.heap.set a hd }
      let w :=
        match hd.network_event with
        | some ev => UnregisterEvent w hd.handler_ ev
        | none => w
      let w :=
        match hd.workpool_event with
        | some ev => UnregisterEvent w hd.handler_ ev
        | none => w
      some (some a, w)

/-- The public `ConnectionHandleFactory::GetConnectionHandle`. -/
def GetConnectionHandle (w : World) (conn_fd : Int) (handler : Nat) :
    Option (HandlePtr × World) :=
  let w := { w with recent_connfd := conn_fd }
  match w.reusable_handles_.find conn_fd with
  | none =>
    let (handle, w) := w.alloc (ConnectionHandle.construct conn_fd handler)
    let w := { w with reusable_handles_ := w.reusable_handles_.assign conn_fd handle }
    some (handle, w)
  | some p => Reset w p

/-- The public `ConnectionHandleFactory::ConnectionHandleAt`. -/
def ConnectionHandleAt (w : World) (conn_fd : Int) : HandlePtr × World :=
  let (p, m) := w.reusable_handles_.index conn_fd
  (p, { w with reusable_handles_ := m })

/-- The object a shared pointer points at, if any. -/
def World.deref (w : World) (p : HandlePtr) : Option ConnectionHandle :=
  match p with
  | none => none
  | some a => w.heap[a]?

/-! ## Sequences of factory calls -/

/-- A run of `GetConnectionHandle` calls, each given as (connection identifier, handler
task): the pointers returned, in call order, and the final state; `none` when one of
the calls has no defined result. -/
def runGets (w : World) : List (Int × Nat) → Option (List HandlePtr × World)
  | [] => some ([], w)
  | (conn_fd, handler) :: rest =>
    match GetConnectionHandle w conn_fd handler with
    | none => none
    | some (p, w1) =>
      match runGets w1 rest with
      | none => none
      | some (ps, w2) => some (p :: ps, w2)

/-- A call of one of the two public operations of the factory. -/
inductive Call where
  | get (conn_fd : Int) (handler : Nat)
  | lookup (conn_fd : Int)
deriving DecidableEq, Repr

/-- A run of public calls on the factory, results dropped. -/
def runCalls (w : World) : List Call → Option World
  | [] => some w
  | Call.get conn_fd handler :: rest =>
    match GetConnectionHandle w conn_fd handler with
    | none => none
    | some (_, w1) => runCalls w1 rest
  | Call.lookup conn_fd :: rest => runCalls (ConnectionHandleAt w conn_fd).2 rest

/-- The identifier passed to the last `GetConnectionHandle` call of a run, `dflt` when
the run has none. -/
def lastGet (dflt : Int) : List Call → Int
  | [] => dflt
  | Call.get conn_fd _ :: rest => lastGet conn_fd rest
  | Call.lookup _ :: rest => lastGet dflt rest

/-- States the process can be in between two factory calls.  Besides the two public
operations, the rest of the server acts on the state (`drive`): handler tasks mutate
the handles they were given and register or drop events, but the factory's map is
private and objects are neither moved nor freed. -/
inductive Reachable (fd0 : Int) : World → Prop where
  | init : Reachable fd0 (World.init fd0)
  | get (w : World) (conn_fd : Int) (handler : Nat) (p : HandlePtr) (w1 : World) :
      Reachable fd0 w → GetConnectionHandle w conn_fd handler = some (p, w1) →
      Reachable fd0 w1
  | lookup (w : World) (conn_fd : Int) :
      Reachable fd0 w → Reachable fd0 (ConnectionHandleAt w conn_fd).2
  | drive (w w1 : World) :
      Reachable fd0 w → w1.reusable_handles_ = w.reusable_handles_ →
      w1.heap.length = w.heap.length → w1.recent_connfd = w.recent_connfd →
      Reachable fd0 w1

/-- A handle for connection 5 as its task (task 1) left it when the connection closed:
bytes in both buffers, security negotiated, a response cursor, and a read-readiness
event (event 10) still registered with the reactor of task 1. -/
def usedHandle : ConnectionHandle :=
  { sock_fd_ := 5
    handler_ := 1
    client_ := { transport_security_state := SecurityState.established }
    rbuf_ := { read_cursor := 2, write_cursor := 3, contents := [80, 0, 4] }
    wbuf_ := { read_cursor := 0, write_cursor := 1, contents := [90] }
    protocol_handler_ := { pending_commands := [81] }
    traffic_cop_ := { is_queuing := true, results := [7] }
    next_response_ := 4
    ssl_sent_ := true
    network_event := some 10
    workpool_event := none }

/-- The state in which `usedHandle` is the pooled handle of connection 5. -/
def usedWorld : World :=
  { recent_connfd := 5
    reusable_handles_ := [(5, some 0)]
    heap := [usedHandle]
    reactors := [(1, 10)]
    unregister_calls := [] }

/-- The events a handle holds, in the order `Reset` looks at them. -/
def ConnectionHandle.heldEvents (hd : ConnectionHandle) : List Nat :=
  hd.network_event.toList ++ hd.workpool_event.toList

/-- The shape of the pool while only `GetConnectionHandle` has been called: no identifier
occurs twice among the keys, every entry points at an allocated handle, and there
are as many handles as entries. -/
structure PoolInv (w : World) : Prop where
  keys_nodup : (w.reusable_handles_.map Prod.fst).Nodup
  allocated : ∀ k p, (k, p) ∈ w.reusable_handles_ → ∃ a, p = some a ∧ a < w.heap.length
  size : w.heap.length = w.reusable_handles_.length

/-- Every non-null entry of the map points at an allocated handle. -/
def HandlesAllocated (w : World) : Prop :=
  ∀ k a, w.reusable_handles_.find k = some (some a) → a < w.heap.length

/-- No handle is the entry of two identifiers. -/
def HandlesDistinct (w : World) : Prop :=
  ∀ k1 k2 a, w.reusable_handles_.find k1 = some (some a) →
    w.reusable_handles_.find k2 = some (some a) → k1 = k2

/-! ## Auxiliary facts -/

theorem HandleMap.find_cons_eq (m : HandleMap) (k : Int) (p : HandlePtr) :
    HandleMap.find ((k, p) :: m) k = some p := by
  simp [HandleMap.find, List.lookup]

theorem HandleMap.find_cons_ne (m : HandleMap) (k k1 : Int) (p : HandlePtr) (hk : k ≠ k1) :
    HandleMap.find ((k1, p) :: m) k = HandleMap.find m k := by
  have hb : (k == k1) = false := by simpa using hk
  simp [HandleMap.find, List.lookup, hb]

theorem HandleMap.find_append_single (m : HandleMap) (c k : Int) (v : HandlePtr) :
    HandleMap.find (m ++ [(c, v)]) k =
      match HandleMap.find m k with
      | some p => some p
      | none => if k = c then some v else none := by
  induction m with
  | nil =>
    by_cases hk : k = c
    · subst hk
      simp [HandleMap.find_cons_eq]
      rfl
    · rw [List.nil_append, HandleMap.find_cons_ne _ _ _ _ hk]
      simp [HandleMap.find, hk]
  | cons e m ih =>
    obtain ⟨k1, p1⟩ := e
    by_cases hk : k = k1
    · subst hk
      rw [List.cons_append, HandleMap.find_cons_eq, HandleMap.find_cons_eq]
    · rw [List.cons_append, HandleMap.find_cons_ne _ _ _ _ hk, HandleMap.find_cons_ne _ _ _ _ hk, ih]

theorem HandleMap.find_some_mem (m : HandleMap) (k : Int) (p : HandlePtr)
    (h : HandleMap.find m k = some p) : (k, p) ∈ m := by
  induction m with
  | nil => simp [HandleMap.find, List.lookup] at h
  | cons e m ih =>
    obtain ⟨k1, p1⟩ := e
    by_cases hk : k = k1
    · subst hk
      rw [HandleMap.find_cons_eq] at h
      simp at h
      simp [h]
    · rw [HandleMap.find_cons_ne _ _ _ _ hk] at h
      exact List.mem_cons_of_mem _ (ih h)

theorem HandleMap.find_none_not_mem (m : HandleMap) (k : Int)
    (h : HandleMap.find m k = none) : k ∉ m.map Prod.fst := by
  induction m with
  | nil => simp
  | cons e m ih =>
    obtain ⟨k1, p1⟩ := e
    by_cases hk : k = k1
    · subst hk
      rw [HandleMap.find_cons_eq] at h
      simp at h
    · rw [HandleMap.find_cons_ne _ _ _ _ hk] at h
      simp only [List.map_cons, List.mem_cons, not_or]
      exact ⟨hk, ih h⟩

theorem HandleMap.find_isSome_of_mem (m : HandleMap) (k : Int)
    (h : k ∈ m.map Prod.fst) : ∃ p, HandleMap.find m k = some p := by
  cases hf : HandleMap.find m k with
  | none => exact absurd h (HandleMap.find_none_not_mem m k hf)
  | some p => exact ⟨p, rfl⟩

/-- The create path of `GetConnectionHandle`, in closed form. -/
theorem GetConnectionHandle_create (w : World) (c : Int) (h : Nat)
    (hnew : w.reusable_handles_.find c = none) :
    GetConnectionHandle w c h =
      some (some w.heap.length,
        { w with
          recent_connfd := c
          reusable_handles_ := w.reusable_handles_ ++ [(c, some w.heap.length)]
          heap := w.heap ++ [ConnectionHandle.construct c h] }) := by
  simp [GetConnectionHandle, hnew, World.alloc, HandleMap.assign]

/-- The reuse path of `GetConnectionHandle`, in closed form. -/
theorem GetConnectionHandle_reuse (w : World) (c : Int) (h : Nat) (a : Nat)
    (hd : ConnectionHandle) (hfind : w.reusable_handles_.find c = some (some a))
    (hobj : w.heap[a]? = some hd) :
    GetConnectionHandle w c h =
      some (some a,
        { recent_connfd := c
          reusable_handles_ := w.reusable_handles_
          heap := w.heap.set a
            { hd with
              client_ := Client.fresh
              rbuf_ := Buffer.fresh
              wbuf_ := Buffer.fresh
              protocol_handler_ := ProtocolHandler.fresh
              traffic_cop_ := TrafficCop.fresh
              next_response_ := 0
              ssl_sent_ := false }
          reactors := w.reactors.filter
            (fun r => decide (r ∉ hd.heldEvents.map (fun ev => (hd.handler_, ev))))
          unregister_calls := w.unregister_calls ++
            hd.heldEvents.map (fun ev => (hd.handler_, ev)) }) := by
  obtain ⟨fd, m, heap, reactors, calls⟩ := w
  simp only at hfind hobj
  rcases hn : hd.network_event with _ | e1 <;> rcases hw : hd.workpool_event with _ | e2 <;>
    simp [GetConnectionHandle, hfind, Reset, hobj, UnregisterEvent, hn, hw,
      ConnectionHandle.heldEvents, Client.Reset, Buffer.Reset, ProtocolHandler.Reset,
      TrafficCop.Reset, Client.fresh, Buffer.fresh, ProtocolHandler.fresh, TrafficCop.fresh,
      List.filter_filter]
  congr 1
  funext r
  exact Bool.and_comm _ _

theorem World.deref_set_self (heap : List ConnectionHandle) (a : Nat)
    (hd hd1 : ConnectionHandle) (hobj : heap[a]? = some hd) :
    (heap.set a hd1)[a]? = some hd1 := by
  have hlt : a < heap.length := by
    by_contra hge
    rw [List.getElem?_eq_none (Nat.le_of_not_lt hge)] at hobj
    exact Option.noConfusion hobj
  simp [List.getElem?_set, hlt]

/-- On the reuse path the handle keeps the handler task it was constructed with or
last driven by; the `handler` argument is not stored. -/
theorem GetConnectionHandle_reuse_handler (w : World) (c : Int) (h2 : Nat) (a : Nat)
    (hd : ConnectionHandle) (hfind : w.reusable_handles_.find c = some (some a))
    (hobj : w.heap[a]? = some hd) :
    ∃ w1 hd1, GetConnectionHandle w c h2 = some (some a, w1) ∧
      w1.deref (some a) = some hd1 ∧ hd1.handler_ = hd.handler_ ∧
      hd1.network_event = hd.network_event ∧ hd1.workpool_event = hd.workpool_event ∧
      hd1.sock_fd_ = hd.sock_fd_ := by
  refine ⟨_, ({ hd with
      client_ := Client.fresh
      rbuf_ := Buffer.fresh
      wbuf_ := Buffer.fresh
      protocol_handler_ := ProtocolHandler.fresh
      traffic_cop_ := TrafficCop.fresh
      next_response_ := 0
      ssl_sent_ := false }),
    GetConnectionHandle_reuse w c h2 a hd hfind hobj, ?_, rfl, rfl, rfl, rfl⟩
  exact World.deref_set_self w.heap a hd _ hobj

/-- Every call of `GetConnectionHandle` that returns took one of the two paths. -/
theorem GetConnectionHandle_cases (w : World) (c : Int) (h : Nat) (p : HandlePtr)
    (w1 : World) (hget : GetConnectionHandle w c h = some (p, w1)) :
    (w.reusable_handles_.find c = none ∧ p = some w.heap.length ∧
      w1.recent_connfd = c ∧
      w1.reusable_handles_ = w.reusable_handles_ ++ [(c, some w.heap.length)] ∧
      w1.heap = w.heap ++ [ConnectionHandle.construct c h]) ∨
    (∃ a hd hd1, w.reusable_handles_.find c = some (some a) ∧ w.heap[a]? = some hd ∧
      p = some a ∧ w1.recent_connfd = c ∧
      w1.reusable_handles_ = w.reusable_handles_ ∧ w1.heap = w.heap.set a hd1) := by
  cases hf : w.reusable_handles_.find c with
  | none =>
    rw [GetConnectionHandle_create w c h hf] at hget
    simp only [Option.some.injEq, Prod.mk.injEq] at hget
    obtain ⟨hp, hw1⟩ := hget
    subst hw1
    exact Or.inl ⟨rfl, hp.symm, rfl, rfl, rfl⟩
  | some q =>
    cases q with
    | none => simp [GetConnectionHandle, hf, Reset] at hget
    | some a =>
      cases hobj : w.heap[a]? with
      | none => simp [GetConnectionHandle, hf, Reset, hobj] at hget
      | some hd =>
        rw [GetConnectionHandle_reuse w c h a hd hf hobj] at hget
        simp only [Option.some.injEq, Prod.mk.injEq] at hget
        obtain ⟨hp, hw1⟩ := hget
        subst hw1
        exact Or.inr ⟨a, hd, _, rfl, hobj, hp.symm, rfl, rfl, rfl⟩

theorem PoolInv.init (fd0 : Int) : PoolInv (World.init fd0) :=
  { keys_nodup := by simp [World.init]
    allocated := by simp [World.init]
    size := rfl }

/-- One `GetConnectionHandle` call on a pool in that shape: it returns a non-null
pointer, keeps the shape, keeps every entry, and the entry of `c` is the pointer
returned. -/
theorem PoolInv.step (w : World) (c : Int) (h : Nat) (hw : PoolInv w) :
    ∃ a w1, GetConnectionHandle w c h = some (some a, w1) ∧ PoolInv w1 ∧
      w1.reusable_handles_.find c = some (some a) ∧
      (∀ k q, w.reusable_handles_.find k = some q → w1.reusable_handles_.find k = some q) ∧
      (∀ e, e ∈ w.reusable_handles_ → e ∈ w1.reusable_handles_) ∧
      (∀ k, k ∈ w1.reusable_handles_.map Prod.fst ↔
        (k ∈ w.reusable_handles_.map Prod.fst ∨ k = c)) := by
  cases hf : w.reusable_handles_.find c with
  | none =>
    have hc : c ∉ w.reusable_handles_.map Prod.fst := HandleMap.find_none_not_mem _ _ hf
    refine ⟨w.heap.length, _, GetConnectionHandle_create w c h hf, ?_, ?_, ?_, ?_, ?_⟩
    · refine ⟨?_, ?_, ?_⟩
      · simp only [List.map_append, List.map_cons, List.map_nil]
        rw [List.nodup_append]
        refine ⟨hw.keys_nodup, List.nodup_singleton c, ?_⟩
        intro x hx hx1
        rw [List.mem_singleton] at hx1
        exact hc (hx1 ▸ hx)
      · intro k p hmem
        simp only [List.mem_append, List.mem_singleton, Prod.mk.injEq] at hmem
        rcases hmem with hmem | ⟨_, hp⟩
        · obtain ⟨a, ha, hlt⟩ := hw.allocated k p hmem
          exact ⟨a, ha, by simp only [List.length_append, List.length_singleton]; omega⟩
        · exact ⟨w.heap.length, hp, by simp⟩
      · simp only [List.length_append, List.length_singleton]
        rw [hw.size]
    · show HandleMap.find (w.reusable_handles_ ++ [(c, some w.heap.length)]) c = _
      rw [HandleMap.find_append_single, hf]
      simp
    · intro k q hk
      show HandleMap.find (w.reusable_handles_ ++ [(c, some w.heap.length)]) k = _
      rw [HandleMap.find_append_single, hk]
    · intro e he
      exact List.mem_append_left _ he
    · intro k
      simp
  | some q =>
    have hmem : (c, q) ∈ w.reusable_handles_ := HandleMap.find_some_mem _ _ _ hf
    obtain ⟨a, hq, hlt⟩ := hw.allocated c q hmem
    subst hq
    have hobj : w.heap[a]? = some (w.heap[a]) := List.getElem?_eq_getElem hlt
    refine ⟨a, _, GetConnectionHandle_reuse w c h a _ hf hobj, ?_, hf, ?_, ?_, ?_⟩
    · refine ⟨hw.keys_nodup, ?_, ?_⟩
      · intro k p hkp
        obtain ⟨b, hb, hblt⟩ := hw.allocated k p hkp
        exact ⟨b, hb, by simpa using hblt⟩
      · simpa using hw.size
    · intro k q hk
      exact hk
    · intro e he
      exact he
    · intro k
      constructor
      · intro hk
        exact Or.inl hk
      · intro hk
        rcases hk with hk | hk
        · exact hk
        · subst hk
          exact List.mem_map.mpr ⟨(k, some a), hmem, rfl⟩

/-- A run of `GetConnectionHandle` calls from a pool in that shape always returns; each
call returns the pointer that the final map holds for its identifier. -/
theorem PoolInv.run (calls : List (Int × Nat)) :
    ∀ w : World, PoolInv w →
    ∃ (ps : List HandlePtr) (w2 : World), runGets w calls = some (ps, w2) ∧ PoolInv w2 ∧
      ps.length = calls.length ∧
      (∀ (i : Nat) (c : Int) (h : Nat), calls[i]? = some (c, h) →
        ∃ a, ps[i]? = some (some a) ∧ w2.reusable_handles_.find c = some (some a)) ∧
      (∀ k q, w.reusable_handles_.find k = some q → w2.reusable_handles_.find k = some q) ∧
      (∀ e, e ∈ w.reusable_handles_ → e ∈ w2.reusable_handles_) ∧
      (∀ k, k ∈ w2.reusable_handles_.map Prod.fst ↔
        (k ∈ w.reusable_handles_.map Prod.fst ∨ k ∈ calls.map Prod.fst)) := by
  induction calls with
  | nil =>
    intro w hw
    exact ⟨[], w, rfl, hw, rfl, by simp, fun _ _ hk => hk, fun _ he => he, by simp⟩
  | cons call rest ih =>
    intro w hw
    obtain ⟨c0, h0⟩ := call
    obtain ⟨a, w1, hget, hw1, hfind, hstable, hsub, hkeys⟩ := PoolInv.step w c0 h0 hw
    obtain ⟨ps, w2, hrun, hw2, hlen, hres, hstable2, hsub2, hkeys2⟩ := ih w1 hw1
    refine ⟨some a :: ps, w2, ?_, hw2, ?_, ?_, ?_, ?_, ?_⟩
    · simp [runGets, hget, hrun]
    · simp [hlen]
    · intro i c h hi
      cases i with
      | zero =>
        simp only [List.getElem?_cons_zero, Option.some.injEq, Prod.mk.injEq] at hi
        obtain ⟨hc, _⟩ := hi
        subst hc
        exact ⟨a, by simp, hstable2 _ _ hfind⟩
      | succ i =>
        simp only [List.getElem?_cons_succ] at hi
        obtain ⟨b, hb, hfb⟩ := hres i c h hi
        exact ⟨b, by simpa using hb, hfb⟩
    · intro k q hk
      exact hstable2 k q (hstable k q hk)
    · intro e he
      exact hsub2 e (hsub e he)
    · intro k
      rw [hkeys2, hkeys]
      simp only [List.map_cons, List.mem_cons]
      tauto

theorem runGets_append (pre post : List (Int × Nat)) :
    ∀ w : World, runGets w (pre ++ post) =
      match runGets w pre with
      | none => none
      | some (ps1, w1) =>
        match runGets w1 post with
        | none => none
        | some (ps2, w2) => some (ps1 ++ ps2, w2) := by
  induction pre with
  | nil =>
    intro w
    simp only [List.nil_append, runGets]
    cases runGets w post with
    | none => rfl
    | some r => rfl
  | cons call rest ih =>
    intro w
    obtain ⟨c0, h0⟩ := call
    rw [List.cons_append]
    simp only [runGets]
    cases GetConnectionHandle w c0 h0 with
    | none => rfl
    | some r =>
      obtain ⟨p, w1⟩ := r
      simp only
      rw [ih w1]
      cases runGets w1 rest with
      | none => rfl
      | some r1 =>
        obtain ⟨ps1, w2⟩ := r1
        simp only
        cases runGets w2 post with
        | none => rfl
        | some r2 => rfl

/-- In the shape kept by `GetConnectionHandle`, the number of handles allocated is the
number of distinct identifiers among the keys. -/
theorem PoolInv.heap_length (w : World) (hw : PoolInv w) (ids : List Int)
    (hkeys : ∀ k, k ∈ w.reusable_handles_.map Prod.fst ↔ k ∈ ids) :
    w.heap.length = ids.dedup.length := by
  have h1 : (w.reusable_handles_.map Prod.fst).toFinset = ids.toFinset := by
    ext k
    simp only [List.mem_toFinset]
    exact hkeys k
  have h2 : (w.reusable_handles_.map Prod.fst).toFinset.card
      = (w.reusable_handles_.map Prod.fst).length :=
    List.toFinset_card_of_nodup hw.keys_nodup
  rw [hw.size, ← List.card_toFinset ids, ← h1, h2, List.length_map]

theorem HandleMap.find_append_single_some (m : HandleMap) (c k : Int) (v : HandlePtr)
    (a : Nat) (h : HandleMap.find (m ++ [(c, v)]) k = some (some a)) :
    HandleMap.find m k = some (some a) ∨
      (HandleMap.find m k = none ∧ k = c ∧ v = some a) := by
  rw [HandleMap.find_append_single] at h
  cases hf : HandleMap.find m k with
  | some q =>
    rw [hf] at h
    exact Or.inl h
  | none =>
    rw [hf] at h
    by_cases hk : k = c
    · simp only [hk, if_true, Option.some.injEq] at h
      exact Or.inr ⟨rfl, hk, h⟩
    · simp [hk] at h

/-- In every reachable state the non-null entries of the map point at allocated
handles, and no two identifiers share a handle. -/
theorem Reachable.handles (fd0 : Int) (w : World) (hr : Reachable fd0 w) :
    HandlesAllocated w ∧ HandlesDistinct w := by
  induction hr with
  | init =>
    constructor
    · intro k a hk
      simp [World.init, HandleMap.find] at hk
    · intro k1 k2 a hk
      simp [World.init, HandleMap.find] at hk
  | get w c h p w1 _ hget ih =>
    obtain ⟨hal, hdi⟩ := ih
    rcases GetConnectionHandle_cases w c h p w1 hget with
      ⟨hf, _, _, hm, hh⟩ | ⟨a, hd, hd1, _, _, _, _, hm, hh⟩
    · constructor
      · intro k a hk
        rw [hm] at hk
        rw [hh, List.length_append, List.length_singleton]
        rcases HandleMap.find_append_single_some _ _ _ _ _ hk with hold | ⟨_, _, hnew⟩
        · exact Nat.lt_succ_of_lt (hal k a hold)
        · simp only [Option.some.injEq] at hnew
          omega
      · intro k1 k2 a hk1 hk2
        rw [hm] at hk1 hk2
        rcases HandleMap.find_append_single_some _ _ _ _ _ hk1 with h1 | ⟨_, e1, n1⟩
        · rcases HandleMap.find_append_single_some _ _ _ _ _ hk2 with h2 | ⟨_, e2, n2⟩
          · exact hdi k1 k2 a h1 h2
          · simp only [Option.some.injEq] at n2
            have := hal k1 a h1
            omega
        · rcases HandleMap.find_append_single_some _ _ _ _ _ hk2 with h2 | ⟨_, e2, n2⟩
          · simp only [Option.some.injEq] at n1
            have := hal k2 a h2
            omega
          · rw [e1, e2]
    · constructor
      · intro k b hk
        rw [hm] at hk
        rw [hh, List.length_set]
        exact hal k b hk
      · intro k1 k2 b hk1 hk2
        rw [hm] at hk1 hk2
        exact hdi k1 k2 b hk1 hk2
  | lookup w c _ ih =>
    obtain ⟨hal, hdi⟩ := ih
    cases hf : w.reusable_handles_.find c with
    | some q =>
      have hsame : (ConnectionHandleAt w c).2 = w := by
        simp [ConnectionHandleAt, HandleMap.index, hf]
      rw [hsame]
      exact ⟨hal, hdi⟩
    | none =>
      have hm : (ConnectionHandleAt w c).2.reusable_handles_
          = w.reusable_handles_ ++ [(c, none)] := by
        simp [ConnectionHandleAt, HandleMap.index, hf]
      have hh : (ConnectionHandleAt w c).2.heap = w.heap := by
        simp [ConnectionHandleAt, HandleMap.index, hf]
      constructor
      · intro k a hk
        rw [hm] at hk
        rw [hh]
        rcases HandleMap.find_append_single_some _ _ _ _ _ hk with hold | ⟨_, _, hnew⟩
        · exact hal k a hold
        · exact Option.noConfusion hnew
      · intro k1 k2 a hk1 hk2
        rw [hm] at hk1 hk2
        rcases HandleMap.find_append_single_some _ _ _ _ _ hk1 with h1 | ⟨_, _, n1⟩
        · rcases HandleMap.find_append_single_some _ _ _ _ _ hk2 with h2 | ⟨_, _, n2⟩
          · exact hdi k1 k2 a h1 h2
          · exact Option.noConfusion n2
        · exact Option.noConfusion n1
  | drive w w1 _ hm hh _ ih =>
    obtain ⟨hal, hdi⟩ := ih
    constructor
    · intro k a hk
      rw [hm] at hk
      rw [hh]
      exact hal k a hk
    · intro k1 k2 a hk1 hk2
      rw [hm] at hk1 hk2
      exact hdi k1 k2 a hk1 hk2

/-! ## Claims -/

/-- C1: when the map has no entry for `c`, `GetConnectionHandle w c h` returns a pointer
to an object that did not exist before the call and that is the handle constructed
for `c` and `h` (its connection identifier is `c`, its handler task is `h`); the map
then holds that pointer at key `c`, and `ConnectionHandleAt c` returns that same
pointer without changing the state. -/
theorem GetConnectionHandle_registers_new_handle (w : World) (c : Int) (h : Nat)
    (hnew : w.reusable_handles_.find c = none) :
    ∃ a w1, GetConnectionHandle w c h = some (some a, w1) ∧
      w.deref (some a) = none ∧
      w1.deref (some a) = some (ConnectionHandle.construct c h) ∧
      (∃ hd, w1.deref (some a) = some hd ∧ hd.sock_fd_ = c ∧ hd.handler_ = h) ∧
      w1.reusable_handles_.find c = some (some a) ∧
      ConnectionHandleAt w1 c = (some a, w1) := by
  have hfind : HandleMap.find (w.reusable_handles_ ++ [(c, some w.heap.length)]) c
      = some (some w.heap.length) := by
    rw [HandleMap.find_append_single, hnew]
    simp
  refine ⟨w.heap.length, _, GetConnectionHandle_create w c h hnew, ?_, ?_, ?_, hfind, ?_⟩
  · simp [World.deref]
  · simp [World.deref]
  · exact ⟨ConnectionHandle.construct c h, by simp [World.deref], rfl, rfl⟩
  · simp only [ConnectionHandleAt, HandleMap.index, hfind]

/-- Witness for C1: connection 5 on handler task 1, in the initial state. -/
theorem GetConnectionHandle_registers_new_handle_witness :
    ∃ a w1, GetConnectionHandle (World.init 0) 5 1 = some (some a, w1) ∧
      (World.init 0).deref (some a) = none ∧
      w1.deref (some a) = some (ConnectionHandle.construct 5 1) ∧
      (∃ hd, w1.deref (some a) = some hd ∧ hd.sock_fd_ = 5 ∧ hd.handler_ = 1) ∧
      w1.reusable_handles_.find 5 = some (some a) ∧
      ConnectionHandleAt w1 5 = (some a, w1) :=
  GetConnectionHandle_registers_new_handle (World.init 0) 5 1 rfl

/-- C3 (evaluation of the code where it departs from the claim): connection 5 is first
given to handler task 1 and then requested again for handler task 2.  The second call
returns the same handle, and the handler task of that handle is still 1, not 2. -/
theorem GetConnectionHandle_reuse_keeps_previous_task :
    ∃ p w1 w2, GetConnectionHandle (World.init 0) 5 1 = some (p, w1) ∧
      GetConnectionHandle w1 5 2 = some (p, w2) ∧
      (w2.deref p).map ConnectionHandle.handler_ = some 1 :=
  ⟨_, _, _, rfl, rfl, rfl⟩

/-- C4: when `c` is registered with a handle `hd`, whatever its contents,
`GetConnectionHandle w c h2` returns that handle with receive and send buffer empty,
client (transport-security) state cleared, `ssl_sent_` false, response cursor 0, and
protocol handler and traffic cop in their initial states: each of these members has
the value it has in a handle that was just constructed. -/
theorem GetConnectionHandle_reuse_resets_state (w : World) (c : Int) (h2 : Nat) (a : Nat)
    (hd : ConnectionHandle) (hfind : w.reusable_handles_.find c = some (some a))
    (hobj : w.heap[a]? = some hd) :
    ∃ w1 hd1, GetConnectionHandle w c h2 = some (some a, w1) ∧
      w1.deref (some a) = some hd1 ∧
      hd1.rbuf_ = Buffer.fresh ∧ hd1.rbuf_.contents = [] ∧
      hd1.wbuf_ = Buffer.fresh ∧ hd1.wbuf_.contents = [] ∧
      hd1.client_ = Client.fresh ∧ hd1.ssl_sent_ = false ∧
      hd1.next_response_ = 0 ∧
      hd1.protocol_handler_ = ProtocolHandler.fresh ∧
      hd1.traffic_cop_ = TrafficCop.fresh ∧
      hd1.rbuf_ = (ConnectionHandle.construct c h2).rbuf_ ∧
      hd1.wbuf_ = (ConnectionHandle.construct c h2).wbuf_ ∧
      hd1.client_ = (ConnectionHandle.construct c h2).client_ ∧
      hd1.ssl_sent_ = (ConnectionHandle.construct c h2).ssl_sent_ ∧
      hd1.next_response_ = (ConnectionHandle.construct c h2).next_response_ ∧
      hd1.protocol_handler_ = (ConnectionHandle.construct c h2).protocol_handler_ ∧
      hd1.traffic_cop_ = (ConnectionHandle.construct c h2).traffic_cop_ := by
  refine ⟨_, ({ hd with
      client_ := Client.fresh
      rbuf_ := Buffer.fresh
      wbuf_ := Buffer.fresh
      protocol_handler_ := ProtocolHandler.fresh
      traffic_cop_ := TrafficCop.fresh
      next_response_ := 0
      ssl_sent_ := false }),
    GetConnectionHandle_reuse w c h2 a hd hfind hobj, ?_,
    rfl, rfl, rfl, rfl, rfl, rfl, rfl, rfl, rfl, rfl, rfl, rfl, rfl, rfl, rfl, rfl⟩
  exact World.deref_set_self w.heap a hd _ hobj

/-- Witness for C4: the used handle of connection 5 is requested for handler task 2. -/
theorem GetConnectionHandle_reuse_resets_state_witness :
    ∃ w1 hd1, GetConnectionHandle usedWorld 5 2 = some (some 0, w1) ∧
      w1.deref (some 0) = some hd1 ∧
      hd1.rbuf_ = Buffer.fresh ∧ hd1.rbuf_.contents = [] ∧
      hd1.wbuf_ = Buffer.fresh ∧ hd1.wbuf_.contents = [] ∧
      hd1.client_ = Client.fresh ∧ hd1.ssl_sent_ = false ∧
      hd1.next_response_ = 0 ∧
      hd1.protocol_handler_ = ProtocolHandler.fresh ∧
      hd1.traffic_cop_ = TrafficCop.fresh ∧
      hd1.rbuf_ = (ConnectionHandle.construct 5 2).rbuf_ ∧
      hd1.wbuf_ = (ConnectionHandle.construct 5 2).wbuf_ ∧
      hd1.client_ = (ConnectionHandle.construct 5 2).client_ ∧
      hd1.ssl_sent_ = (ConnectionHandle.construct 5 2).ssl_sent_ ∧
      hd1.next_response_ = (ConnectionHandle.construct 5 2).next_response_ ∧
      hd1.protocol_handler_ = (ConnectionHandle.construct 5 2).protocol_handler_ ∧
      hd1.traffic_cop_ = (ConnectionHandle.construct 5 2).traffic_cop_ :=
  GetConnectionHandle_reuse_resets_state usedWorld 5 2 0 usedHandle rfl rfl

/-- C5 (evaluation of the code where it departs from the claim): the pooled handle of
connection 5 still holds read-readiness event 10 of task 1.  `usedWorld` is a state
the server can be in.  After `GetConnectionHandle 5 2` the reactor of task 1 no longer
tracks event 10, yet the handle still refers to it, whereas a handle that was just
constructed refers to no event. -/
theorem GetConnectionHandle_reuse_leaves_stale_event :
    Reachable 0 usedWorld ∧
    ∃ w1, GetConnectionHandle usedWorld 5 2 = some (some 0, w1) ∧
      (w1.deref (some 0)).map ConnectionHandle.network_event = some (some 10) ∧
      (1, 10) ∉ w1.reactors ∧
      (ConnectionHandle.construct 5 2).network_event = none := by
  refine ⟨?_, _, rfl, rfl, by decide, rfl⟩
  refine Reachable.drive _ usedWorld
    (Reachable.get (World.init 0) 5 1 _ _ Reachable.init rfl) rfl rfl rfl

/-- C6: when `c` is registered with a handle `hd`, `GetConnectionHandle w c h2` makes
exactly these `UnregisterEvent` calls, in this order: one for `network_event` if it is
set, then one for `workpool_event` if it is set, each on the task `hd.handler_` the
handle had before the call; an unset event causes no call.  The reactors lose exactly
the registrations named in those calls, so for `h2` different from the previous task
no call is made on `h2` and the reactor of `h2` is unchanged. -/
theorem GetConnectionHandle_reuse_unregisters_on_previous_task (w : World) (c : Int)
    (h2 : Nat) (a : Nat) (hd : ConnectionHandle)
    (hfind : w.reusable_handles_.find c = some (some a)) (hobj : w.heap[a]? = some hd) :
    ∃ w1, GetConnectionHandle w c h2 = some (some a, w1) ∧
      w1.unregister_calls = w.unregister_calls ++
        (hd.network_event.toList ++ hd.workpool_event.toList).map
          (fun ev => (hd.handler_, ev)) ∧
      (∀ r, r ∈ w1.reactors ↔
        (r ∈ w.reactors ∧ r ∉ (hd.network_event.toList ++ hd.workpool_event.toList).map
          (fun ev => (hd.handler_, ev)))) ∧
      (h2 ≠ hd.handler_ → ∀ ev,
        (h2, ev) ∉ (hd.network_event.toList ++ hd.workpool_event.toList).map
          (fun ev => (hd.handler_, ev)) ∧
        ((h2, ev) ∈ w1.reactors ↔ (h2, ev) ∈ w.reactors)) := by
  refine ⟨_, GetConnectionHandle_reuse w c h2 a hd hfind hobj, rfl, ?_, ?_⟩
  · intro r
    simp [ConnectionHandle.heldEvents]
  · intro hne ev
    have hnot : (h2, ev) ∉ (hd.network_event.toList ++ hd.workpool_event.toList).map
        (fun ev => (hd.handler_, ev)) := by
      intro hmem
      obtain ⟨e, _, he⟩ := List.mem_map.mp hmem
      exact hne (congrArg Prod.fst he).symm
    refine ⟨hnot, ?_⟩
    simp only [ConnectionHandle.heldEvents, List.mem_filter, decide_eq_true_eq]
    exact ⟨fun hx => hx.1, fun hx => ⟨hx, hnot⟩⟩

/-- Witness for C6: the used handle of connection 5 (task 1, event 10) is requested for
handler task 2. -/
theorem GetConnectionHandle_reuse_unregisters_on_previous_task_witness :
    ∃ w1, GetConnectionHandle usedWorld 5 2 = some (some 0, w1) ∧
      w1.unregister_calls = usedWorld.unregister_calls ++
        (usedHandle.network_event.toList ++ usedHandle.workpool_event.toList).map
          (fun ev => (usedHandle.handler_, ev)) ∧
      (∀ r, r ∈ w1.reactors ↔
        (r ∈ usedWorld.reactors ∧
          r ∉ (usedHandle.network_event.toList ++ usedHandle.workpool_event.toList).map
            (fun ev => (usedHandle.handler_, ev)))) ∧
      (2 ≠ usedHandle.handler_ → ∀ ev,
        (2, ev) ∉ (usedHandle.network_event.toList ++ usedHandle.workpool_event.toList).map
          (fun ev => (usedHandle.handler_, ev)) ∧
        ((2, ev) ∈ w1.reactors ↔ (2, ev) ∈ usedWorld.reactors)) :=
  GetConnectionHandle_reuse_unregisters_on_previous_task usedWorld 5 2 0 usedHandle rfl rfl

/-- C8 (evaluation of the code where it departs from the claim): in the initial state,
`ConnectionHandleAt 7` for an identifier never passed to `GetConnectionHandle` leaves
the entry `(7, nullptr)` in the map; the state is reachable, and the following
`GetConnectionHandle 7 1` finds that entry and applies `Reset` to the null pointer,
which has no defined result. -/
theorem ConnectionHandleAt_inserts_null_entry :
    ConnectionHandleAt (World.init 0) 7 =
      (none, { World.init 0 with reusable_handles_ := [(7, none)] }) ∧
    Reachable 0 (ConnectionHandleAt (World.init 0) 7).2 ∧
    (ConnectionHandleAt (World.init 0) 7).2.reusable_handles_.find 7 = some none ∧
    Reset (ConnectionHandleAt (World.init 0) 7).2 none = none ∧
    GetConnectionHandle (ConnectionHandleAt (World.init 0) 7).2 7 1 = none :=
  ⟨rfl, Reachable.lookup _ 7 Reachable.init, rfl, rfl, rfl⟩

/-- C2: every run of `GetConnectionHandle` calls from the empty factory returns at each
call; two calls for the same identifier `c` return the same non-null pointer, which
is the entry of `c` in the final map; the number of handles constructed is the number
of distinct identifiers requested, after the whole run and after each initial part of
it, so only the first call for an identifier constructs; the keys of the map are
pairwise distinct at every point; and every entry present after an initial part of
the run is still present at the end. -/
theorem runGets_one_handle_per_identifier (fd0 : Int) (calls : List (Int × Nat)) :
    ∃ (ps : List HandlePtr) (w2 : World),
      runGets (World.init fd0) calls = some (ps, w2) ∧
      ps.length = calls.length ∧
      (∀ (i j : Nat) (c : Int) (h1 h2 : Nat),
        calls[i]? = some (c, h1) → calls[j]? = some (c, h2) →
        ∃ a, ps[i]? = some (some a) ∧ ps[j]? = some (some a) ∧
          w2.reusable_handles_.find c = some (some a)) ∧
      w2.heap.length = (calls.map Prod.fst).dedup.length ∧
      (w2.reusable_handles_.map Prod.fst).Nodup ∧
      (∀ pre post : List (Int × Nat), calls = pre ++ post →
        ∃ (ps1 : List HandlePtr) (w1 : World),
          runGets (World.init fd0) pre = some (ps1, w1) ∧
          ps1 = ps.take pre.length ∧
          w1.heap.length = (pre.map Prod.fst).dedup.length ∧
          (w1.reusable_handles_.map Prod.fst).Nodup ∧
          ∀ e, e ∈ w1.reusable_handles_ → e ∈ w2.reusable_handles_) := by
  obtain ⟨ps, w2, hrun, hw2, hlen, hres, _, _, hkeys⟩ :=
    PoolInv.run calls (World.init fd0) (PoolInv.init fd0)
  refine ⟨ps, w2, hrun, hlen, ?_, ?_, hw2.keys_nodup, ?_⟩
  · intro i j c h1 h2 hi hj
    obtain ⟨a, ha, hfa⟩ := hres i c h1 hi
    obtain ⟨b, hb, hfb⟩ := hres j c h2 hj
    have hab : a = b := by
      rw [hfa] at hfb
      simpa using hfb
    subst hab
    exact ⟨a, ha, hb, hfa⟩
  · apply PoolInv.heap_length w2 hw2
    intro k
    rw [hkeys]
    simp [World.init]
  · intro pre post hsplit
    obtain ⟨ps1, w1, hrun1, hw1, hlen1, _, _, _, hkeys1⟩ :=
      PoolInv.run pre (World.init fd0) (PoolInv.init fd0)
    obtain ⟨ps2, w3, hrun2, _, _, _, _, hsub, _⟩ := PoolInv.run post w1 hw1
    have happ := runGets_append pre post (World.init fd0)
    rw [hrun1] at happ
    simp only [hrun2] at happ
    rw [← hsplit, hrun] at happ
    simp only [Option.some.injEq, Prod.mk.injEq] at happ
    obtain ⟨hps, hw3⟩ := happ
    subst hw3
    refine ⟨ps1, w1, hrun1, ?_, ?_, hw1.keys_nodup, hsub⟩
    · rw [hps, ← hlen1, List.take_left]
    · apply PoolInv.heap_length w1 hw1
      intro k
      rw [hkeys1]
      simp [World.init]

/-- Witness for C2: connection 5, then 7, then 5 again on another task. -/
theorem runGets_one_handle_per_identifier_witness :
    ∃ (ps : List HandlePtr) (w2 : World),
      runGets (World.init 0) [(5, 1), (7, 1), (5, 2)] = some (ps, w2) ∧
      ps.length = [((5 : Int), 1), (7, 1), (5, 2)].length ∧
      (∀ (i j : Nat) (c : Int) (h1 h2 : Nat),
        [((5 : Int), 1), (7, 1), (5, 2)][i]? = some (c, h1) →
        [((5 : Int), 1), (7, 1), (5, 2)][j]? = some (c, h2) →
        ∃ a, ps[i]? = some (some a) ∧ ps[j]? = some (some a) ∧
          w2.reusable_handles_.find c = some (some a)) ∧
      w2.heap.length = ([((5 : Int), 1), (7, 1), (5, 2)].map Prod.fst).dedup.length ∧
      (w2.reusable_handles_.map Prod.fst).Nodup ∧
      (∀ pre post : List (Int × Nat), [((5 : Int), 1), (7, 1), (5, 2)] = pre ++ post →
        ∃ (ps1 : List HandlePtr) (w1 : World),
          runGets (World.init 0) pre = some (ps1, w1) ∧
          ps1 = ps.take pre.length ∧
          w1.heap.length = (pre.map Prod.fst).dedup.length ∧
          (w1.reusable_handles_.map Prod.fst).Nodup ∧
          ∀ e, e ∈ w1.reusable_handles_ → e ∈ w2.reusable_handles_) :=
  runGets_one_handle_per_identifier 0 [(5, 1), (7, 1), (5, 2)]

/-- C9: in a reachable state, a returning call `GetConnectionHandle w c h` leaves, for
every identifier `d` other than `c`, the lookup result of `d` in the map as it was,
and the object behind that entry (all its members) as it was; this covers the create
path and the reuse path. -/
theorem GetConnectionHandle_frame (fd0 : Int) (w : World) (hr : Reachable fd0 w)
    (c d : Int) (h : Nat) (hne : d ≠ c) (p : HandlePtr) (w1 : World)
    (hget : GetConnectionHandle w c h = some (p, w1)) :
    w1.reusable_handles_.find d = w.reusable_handles_.find d ∧
    ∀ q, w.reusable_handles_.find d = some q → w1.deref q = w.deref q := by
  obtain ⟨hal, hdi⟩ := Reachable.handles fd0 w hr
  rcases GetConnectionHandle_cases w c h p w1 hget with
    ⟨hf, _, _, hm, hh⟩ | ⟨a, hd, hd1, hf, _, _, _, hm, hh⟩
  · constructor
    · rw [hm, HandleMap.find_append_single]
      cases hfd : w.reusable_handles_.find d with
      | some q => rfl
      | none => simp [hne]
    · intro q hq
      cases q with
      | none => rfl
      | some b =>
        have hb : b < w.heap.length := hal d b hq
        simp only [World.deref, hh]
        exact List.getElem?_append_left hb
  · constructor
    · rw [hm]
    · intro q hq
      cases q with
      | none => rfl
      | some b =>
        have hab : a ≠ b := by
          intro hab
          subst hab
          exact hne (hdi d c a hq hf)
        simp only [World.deref, hh]
        exact List.getElem?_set_ne hab

/-- Witness for C9: connections 5 and 7 exist; 5 is requested again (reuse path), and
the entry of 7 and its handle stay as they were. -/
theorem GetConnectionHandle_frame_witness :
    ∃ w w1 p, Reachable 0 w ∧ GetConnectionHandle w 5 3 = some (p, w1) ∧
      w.reusable_handles_.find 7 = some (some 1) ∧
      w1.reusable_handles_.find 7 = w.reusable_handles_.find 7 ∧
      ∀ q, w.reusable_handles_.find 7 = some q → w1.deref q = w.deref q :=
  ⟨_, _, _,
    Reachable.get _ 7 2 _ _ (Reachable.get (World.init 0) 5 1 _ _ Reachable.init rfl) rfl,
    rfl, rfl,
    GetConnectionHandle_frame 0 _
      (Reachable.get _ 7 2 _ _ (Reachable.get (World.init 0) 5 1 _ _ Reachable.init rfl) rfl)
      5 7 3 (by decide) _ _ rfl⟩

/-- C10: a returning `GetConnectionHandle w c h` leaves `recent_connfd = c`; the call
returns with `recent_connfd = c` on the create path and on the reuse path;
`ConnectionHandleAt` leaves `recent_connfd` as it was; hence after a run of calls of
both operations `recent_connfd` is the identifier of the last `GetConnectionHandle`
call of the run (its initial value when there was none). -/
theorem GetConnectionHandle_sets_recent_connfd :
    (∀ (w : World) (c : Int) (h : Nat) (p : HandlePtr) (w1 : World),
      GetConnectionHandle w c h = some (p, w1) → w1.recent_connfd = c) ∧
    (∀ (w : World) (c : Int) (h : Nat), w.reusable_handles_.find c = none →
      ∃ p w1, GetConnectionHandle w c h = some (p, w1) ∧ w1.recent_connfd = c) ∧
    (∀ (w : World) (c : Int) (h : Nat) (a : Nat) (hd : ConnectionHandle),
      w.reusable_handles_.find c = some (some a) → w.heap[a]? = some hd →
      ∃ w1, GetConnectionHandle w c h = some (some a, w1) ∧ w1.recent_connfd = c) ∧
    (∀ (w : World) (c : Int), (ConnectionHandleAt w c).2.recent_connfd = w.recent_connfd) ∧
    (∀ (calls : List Call) (w w1 : World), runCalls w calls = some w1 →
      w1.recent_connfd = lastGet w.recent_connfd calls) := by
  have hstep : ∀ (w : World) (c : Int) (h : Nat) (p : HandlePtr) (w1 : World),
      GetConnectionHandle w c h = some (p, w1) → w1.recent_connfd = c := by
    intro w c h p w1 hget
    rcases GetConnectionHandle_cases w c h p w1 hget with
      ⟨_, _, hfd, _, _⟩ | ⟨_, _, _, _, _, _, hfd, _, _⟩
    · exact hfd
    · exact hfd
  have hat : ∀ (w : World) (c : Int),
      (ConnectionHandleAt w c).2.recent_connfd = w.recent_connfd := by
    intro w c
    cases hf : w.reusable_handles_.find c with
    | none => simp [ConnectionHandleAt, HandleMap.index, hf]
    | some q => simp [ConnectionHandleAt, HandleMap.index, hf]
  refine ⟨hstep, ?_, ?_, hat, ?_⟩
  · intro w c h hf
    exact ⟨_, _, GetConnectionHandle_create w c h hf, rfl⟩
  · intro w c h a hd hf hobj
    exact ⟨_, GetConnectionHandle_reuse w c h a hd hf hobj, rfl⟩
  · intro calls
    induction calls with
    | nil =>
      intro w w1 hrun
      simp only [runCalls, Option.some.injEq] at hrun
      rw [← hrun]
      rfl
    | cons call rest ih =>
      intro w w1 hrun
      cases call with
      | get c h =>
        simp only [runCalls] at hrun
        cases hget : GetConnectionHandle w c h with
        | none => simp [hget] at hrun
        | some r =>
          obtain ⟨p, w0⟩ := r
          simp only [hget] at hrun
          have h1 := ih w0 w1 hrun
          rw [hstep w c h p w0 hget] at h1
          exact h1
      | lookup c =>
        simp only [runCalls] at hrun
        have h1 := ih _ w1 hrun
        rw [hat w c] at h1
        exact h1

/-- Witness for C10: a run mixing both operations; the last `GetConnectionHandle` call is
for connection 7. -/
theorem GetConnectionHandle_sets_recent_connfd_witness :
    ∃ w1, runCalls (World.init (-1))
        [Call.get 5 1, Call.lookup 9, Call.get 7 2, Call.get 5 2, Call.get 7 1, Call.lookup 5]
        = some w1 ∧
      w1.recent_connfd = 7 :=
  ⟨_, rfl, GetConnectionHandle_sets_recent_connfd.2.2.2.2
    [Call.get 5 1, Call.lookup 9, Call.get 7 2, Call.get 5 2, Call.get 7 1, Call.lookup 5]
    (World.init (-1)) _ rfl⟩

end peloton.network

